import Mathlib

/-!
Formal model of the endpoint-selection and streaming-relay layer of
`server.js` (an Express gateway in front of Ollama backends).

Every definition is a shallow embedding of a concrete piece of the source:
JavaScript strings are Lean `String`s, absent/`null` values are `Option`,
the mutable `ollamaEndpoint` is threaded explicitly, outbound axios calls
are reified as `HttpRequest` values, and the streaming relay is a state
machine over the events that can fire on one relay operation.
-/

namespace OllamaMM

/-! ### JavaScript string primitives

`String.split(sep)`, `String.trim()`, `String.indexOf()`, `String.slice()`,
`Array.join(sep)` and template-literal interpolation, implemented over
`List Char` so that they evaluate inside the kernel.
-/

/-- JavaScript `s.split(sep)` on character lists: `"".split(c) = [""]`. -/
def splitCharList (sep : Char) : List Char → List (List Char)
  | [] => [[]]
  | c :: rest =>
    let r := splitCharList sep rest
    if c = sep then [] :: r
    else
      match r with
      | [] => [[c]]
      | h :: t => (c :: h) :: t

/-- JavaScript `s.split(sep)` for a one-character separator. -/
def jsSplit (sep : Char) (s : String) : List String :=
  (splitCharList sep s.toList).map String.mk

/-- Strip leading and trailing whitespace from a character list. -/
def jsTrimList (cs : List Char) : List Char :=
  ((cs.dropWhile Char.isWhitespace).reverse.dropWhile Char.isWhitespace).reverse

/-- JavaScript `s.trim()`. -/
def jsTrim (s : String) : String :=
  String.mk (jsTrimList s.toList)

/-- JavaScript `s.indexOf(c)`: index of the first occurrence, `none` for `-1`. -/
def jsIndexOf (c : Char) : List Char → Option Nat
  | [] => none
  | a :: rest =>
    if a = c then some 0
    else (jsIndexOf c rest).map (· + 1)

/-- Template-literal interpolation of a nullable string: `null` prints as the
four characters `"null"`. -/
def jsTemplate : Option String → String
  | none => "null"
  | some s => s

/-- JavaScript `s || null` for a string `s`: the empty string is falsy. -/
def jsOrNullStr (s : String) : Option String :=
  if s = "" then none else some s

/-- JavaScript `x || null` for a nullable string `x`. -/
def jsOrNullOpt : Option String → Option String
  | none => none
  | some s => jsOrNullStr s

/-- JavaScript `xs.join(sep)`. -/
def jsJoin (sep : String) : List String → String
  | [] => ""
  | [x] => x
  | x :: rest => x ++ sep ++ jsJoin sep rest

/-- JavaScript truthiness of a possibly-absent string field. -/
def jsTruthy : Option String → Bool
  | none => false
  | some s => s ≠ ""

/-! ### EndpointRegistry — `getEndpointConfigs`, `getEndpoints`, `getApiKeyFor`

Embeds `server.js` lines 63–89.  `process.env.OLLAMA_ENDPOINTS` is the
`env : Option String` parameter (`none` = unset; the empty string is falsy
in JavaScript, so both fall back to the default).
-/

/-- One parsed `{ url, apiKey }` entry. -/
structure EndpointConfig where
  url : String
  apiKey : Option String
deriving DecidableEq

/-- The fallback endpoint string used when `OLLAMA_ENDPOINTS` is unset. -/
def defaultEndpoints : String := "http://localhost:11434"

/-- Parsing of one comma-separated entry (`server.js` lines 74–80): split at
the first `'_'`; no underscore means the whole entry is the url with no key;
otherwise url = trimmed prefix, apiKey = trimmed suffix or `null` if empty. -/
def parseEntryItem (item : String) : EndpointConfig :=
  match jsIndexOf '_' item.toList with
  | none => ⟨item, none⟩
  | some idx =>
      ⟨jsTrim (String.mk (item.toList.take idx)),
       jsOrNullStr (jsTrim (String.mk (item.toList.drop (idx + 1))))⟩

/-- Embeds `getEndpointConfigs` (`server.js` lines 68–81). -/
def getEndpointConfigs (env : Option String) : List EndpointConfig :=
  let raw := match env with
    | none => defaultEndpoints
    | some s => if s = "" then defaultEndpoints else s
  ((((jsSplit ',' raw).map jsTrim).filter (fun s => s ≠ "")).map parseEntryItem)

/-- Embeds `getEndpoints` (`server.js` line 84): urls only. -/
def getEndpoints (env : Option String) : List String :=
  (getEndpointConfigs env).map (·.url)

/-- Embeds `getApiKeyFor` (`server.js` lines 86–89): first entry whose url matches,
then `hit?.apiKey || null`. -/
def getApiKeyFor (env : Option String) (url : String) : Option String :=
  jsOrNullOpt (((getEndpointConfigs env).find? (fun c => c.url == url)).bind (·.apiKey))

/-! ### BackendClient — the outbound axios calls, reified

Each call site in `server.js` builds one `HttpRequest`.  The mutable
`ollamaEndpoint` (line 64) is threaded as the `endpoint` parameter;
`POST /api/set-endpoint` (line 99) overwrites it with the request body's url,
so "after the active target is set to `u`" is modelled by `endpoint := u`.
-/

/-- A JSON-ish value, enough to describe the request bodies `server.js`
passes to axios. -/
inductive JVal where
  | s (v : String)
  | obj (fields : List (String × JVal))
  | nul

/-- An outbound HTTP request as axios would send it: method, absolute url,
HTTP headers, JSON body. -/
structure HttpRequest where
  method : String
  url : String
  headers : List (String × String)
  body : JVal

/-- The interpolated header value `` `Bearer ${getApiKeyFor(ollamaEndpoint)}` ``. -/
def authValue (env : Option String) (endpoint : String) : String :=
  "Bearer " ++ jsTemplate (getApiKeyFor env endpoint)

/-- The headers object built at the GET/DELETE/pull call sites. -/
def stdHeaders (env : Option String) (endpoint : String) : List (String × String) :=
  [("Authorization", authValue env endpoint), ("Content-Type", "application/json")]

/-- From `server.js` line 102: the connectivity probe issued by `/api/set-endpoint`. -/
def probeRequest (env : Option String) (endpoint : String) : HttpRequest :=
  ⟨"GET", endpoint ++ "/api/tags", stdHeaders env endpoint, .nul⟩

/-- From `server.js` line 121: the backend call of `GET /api/ps`. -/
def psRequest (env : Option String) (endpoint : String) : HttpRequest :=
  ⟨"GET", endpoint ++ "/api/ps", stdHeaders env endpoint, .nul⟩

/-- From `server.js` line 139: the listing call of `GET /api/models`. -/
def tagsRequest (env : Option String) (endpoint : String) : HttpRequest :=
  ⟨"GET", endpoint ++ "/api/tags", stdHeaders env endpoint, .nul⟩

/-- From `server.js` lines 192–199: one delete sub-call of `DELETE /api/models`. -/
def deleteRequest (env : Option String) (endpoint : String) (model : String) : HttpRequest :=
  ⟨"DELETE", endpoint ++ "/api/delete", stdHeaders env endpoint, .obj [("name", .s model)]⟩

/-- From `server.js` lines 243–252: the streaming pull call of `handleModelOperation`. -/
def pullRequest (env : Option String) (endpoint : String) (operation : JVal) : HttpRequest :=
  ⟨"POST", endpoint ++ "/api/pull", stdHeaders env endpoint, operation⟩

/-- From `server.js` lines 149–156: the detail sub-call of `GET /api/models`.
The source calls `axios.post(url, { name, headers: {...} })`: the object
holding `headers` is the second argument of `axios.post`, i.e. the request
BODY, not the axios config, so the `headers` object (with its
`Authorization` entry) is serialized into the JSON body and the HTTP
request itself carries no Authorization header. -/
def showRequest (env : Option String) (endpoint : String) (name : String) : HttpRequest :=
  ⟨"POST", endpoint ++ "/api/show", [],
   .obj [("name", .s name),
         ("headers", .obj [("Authorization", .s (authValue env endpoint)),
                           ("Content-Type", .s "application/json")])]⟩

/-- Embeds `POST /api/set-endpoint` (`server.js` line 99): `ollamaEndpoint = endpoint`,
unconditionally, before the probe. -/
def setEndpoint (newEndpoint : String) : String := newEndpoint

/-! ### `DELETE /api/models` — batch deletion (`server.js` lines 189–221)

`ok` tells whether the backend delete for a given model name fulfills
(`Promise.allSettled` never rejects, so every sub-call is attempted).
-/

/-- The per-model outcomes, aligned with `models`: `true` = fulfilled. -/
def deleteResults (ok : String → Bool) (ms : List String) : List Bool :=
  ms.map ok

/-- From `server.js` lines 202–204:
`results.filter(r => r.status === 'rejected').map((r, i) => models[i])` —
the callback index `i` enumerates the FILTERED list, not `results`. -/
def failedModels (ms : List String) (results : List Bool) : List String :=
  ((results.filter (fun r => r = false)).enum).map (fun p => ms.getD p.1 "")

/-- The JSON response of `DELETE /api/models`. -/
structure DeleteResponse where
  status : Nat
  success : Bool
  message : String
deriving DecidableEq

/-- The body of the `DELETE /api/models` handler once `models` is an array
(`server.js` lines 192–213). -/
def deleteModelsCore (ok : String → Bool) (ms : List String) : DeleteResponse :=
  let results := deleteResults ok ms
  let failed := failedModels ms results
  if failed.length > 0 then
    ⟨500, false, "Failed to delete models: " ++ jsJoin ", " failed⟩
  else
    ⟨200, true, "Models deleted successfully"⟩

/-! ### Route-level validation and backend-call counting -/

/-- What a route handler did: the HTTP status it answered with and how many
backend calls it issued. -/
structure RouteOutcome where
  status : Nat
  backendCalls : Nat
deriving DecidableEq

/-- Embeds `POST /api/pull` (`server.js` lines 290–299): `if (!model)` → 400 with no
backend call, else the relay issues its initiating backend call. -/
def pullRoute (model : Option String) : RouteOutcome :=
  if jsTruthy model = false then ⟨400, 0⟩ else ⟨200, 1⟩

/-- Embeds `POST /api/update-model` (`server.js` lines 302–311): `if (!modelName)` →
400 with no backend call, else the relay runs with `{ model: modelName }`. -/
def updateModelRoute (modelName : Option String) : RouteOutcome :=
  if jsTruthy modelName = false then ⟨400, 0⟩ else ⟨200, 1⟩

/-- Embeds `DELETE /api/models` at route level.  `models? = none` models a body
without a `models` field: the handler performs no check, `models.map(...)`
throws a `TypeError` before any axios call, and the `catch` block answers
500 `"Failed to process delete request"`. -/
def deleteRoute (models? : Option (List String)) (ok : String → Bool) :
    DeleteResponse × Nat :=
  match models? with
  | none => (⟨500, false, "Failed to process delete request"⟩, 0)
  | some ms => (deleteModelsCore ok ms, ms.length)

/-! ### StreamRelay — `handleModelOperation` (`server.js` lines 224–287)

The client response `res` is modelled by a `RelayState`: the `hasEnded`
guard flag and the ordered log of effects applied to `res` (`res.write`
and `res.end`).  `JSON.parse` succeeding on a line is the oracle
`parse : String → Bool` (an external library call, so it is a parameter).
The events that can fire on one relay operation — a backend `'data'`
chunk, backend `'end'`, backend/initiation `'error'`, and client
`'close'` — drive the machine.
-/

/-- One observable effect on the client response stream. -/
inductive WriteAct where
  | write (s : String)
  | endRes
deriving DecidableEq

/-- Whether an effect is a forwarding/error write (as opposed to `res.end()`). -/
def WriteAct.isWriteAct : WriteAct → Bool
  | .write _ => true
  | .endRes => false

/-- Whether an effect is `res.end()`. -/
def WriteAct.isEndAct : WriteAct → Bool
  | .write _ => false
  | .endRes => true

/-- The client response stream: the one-shot guard plus the effect log. -/
structure RelayState where
  hasEnded : Bool
  log : List WriteAct
deriving DecidableEq

/-- The initial state of a relay operation. -/
def initialRelayState : RelayState := ⟨false, []⟩

/-- Minimal `JSON.stringify` string escaping (quote, backslash, newline). -/
def jsonEscapeChar (c : Char) : String :=
  if c = '"' then "\\\""
  else if c = '\\' then "\\\\"
  else if c = '\n' then "\\n"
  else String.singleton c

/-- Serialization `JSON.stringify` of a string value. -/
def jsonStringifyStr (s : String) : String :=
  "\"" ++ String.join (s.toList.map jsonEscapeChar) ++ "\""

/-- The single error record written on the failure path
(`server.js` lines 233–236): `JSON.stringify({status:'error', error: msg}) + '\n'`. -/
def errorRecord (msg : String) : String :=
  "\x7b\"status\":\"error\",\"error\":" ++ jsonStringifyStr msg ++ "\x7d" ++ "\n"

/-- Embeds `endResponse` (`server.js` lines 229–240): a no-op when `hasEnded` is
already set; otherwise sets it, writes the error record when called with an
error, and ends the response. -/
def endResponse (err : Option String) (s : RelayState) : RelayState :=
  if s.hasEnded then s
  else
    { hasEnded := true,
      log := s.log ++ (match err with
        | some m => [WriteAct.write (errorRecord m)]
        | none => []) ++ [WriteAct.endRes] }

/-- Processing of one line of a chunk (`server.js` lines 259–268):
skip blank lines, `JSON.parse` it, forward `line + '\n'` on success, drop
it (log only) on failure. -/
def processLine (parse : String → Bool) (line : String) : List WriteAct :=
  if jsTrim line ≠ "" then
    if parse line then [WriteAct.write (line ++ "\n")] else []
  else []

/-- The `'data'` handler (`server.js` lines 256–273): decode the chunk,
split on newlines, process each line in order.  Note it never consults
`hasEnded` and never changes it. -/
def processChunk (parse : String → Bool) (chunk : String) (s : RelayState) : RelayState :=
  { s with log := s.log ++ (jsSplit '\n' chunk).flatMap (processLine parse) }

/-- The events that can fire on one relay operation.  `streamError` also
stands for the initiating axios call failing (both reach
`endResponse(error)`, lines 276–279 and 283–286). -/
inductive RelayEvent where
  | data (chunk : String)
  | streamEnd
  | streamError (msg : String)
  | clientClose

/-- Dispatch of one event to its registered handler
(`server.js` lines 256–281). -/
def relayStep (parse : String → Bool) (s : RelayState) : RelayEvent → RelayState
  | .data chunk => processChunk parse chunk s
  | .streamEnd => endResponse none s
  | .streamError m => endResponse (some m) s
  | .clientClose => endResponse none s

/-- A whole relay operation: the event sequence applied to the fresh state. -/
def relayRun (parse : String → Bool) (events : List RelayEvent) : RelayState :=
  events.foldl (relayStep parse) initialRelayState

/-- How many times `res.end()` was called. -/
def endCount (s : RelayState) : Nat :=
  s.log.countP WriteAct.isEndAct

/-- Whether some write to the client occurs after the first `res.end()`
in the effect log. -/
def writeAfterEnd : List WriteAct → Bool
  | [] => false
  | .endRes :: rest => rest.any WriteAct.isWriteAct
  | .write _ :: rest => writeAfterEnd rest

/-- A stand-in for `JSON.parse` succeeding, agreeing with it on the concrete
lines used in the examples below: the line must start with `{` and end
with `}`. -/
def braceParse (line : String) : Bool :=
  match line.toList with
  | [] => false
  | c :: rest => c = '\x7b' && (c :: rest).getLastD '\x7b' = '\x7d'

/-! ### `GET /api/models` — listing with detail enrichment
(`server.js` lines 137–186)

A model coming back from `/api/tags` is a `TagModel` (its name plus its
other fields, kept opaque).  For each model a `/api/show` detail sub-call
is attempted; `show : String → Option ShowData` gives its outcome (`none`
= the sub-call failed and the inner `catch` returns the model unchanged).
-/

/-- A model as returned by the backend's `/api/tags`: its `name` plus the
remaining original fields, kept opaque as key/value pairs. -/
structure TagModel where
  name : String
  fields : List (String × String)
deriving DecidableEq

/-- The `details` sub-object of a `/api/show` response; every field may be
absent (`detailsResponse.data.details?.f`). -/
structure ShowDetails where
  parent_model : Option String
  format : Option String
  family : Option String
  families : Option (List String)
  parameter_size : Option String
  quantization_level : Option String
deriving DecidableEq

/-- Embeds `detailsResponse.data`: the `details` object itself may be absent. -/
structure ShowData where
  details : Option ShowDetails
deriving DecidableEq

/-- The normalized `details` object attached to an enriched model. -/
structure ModelDetails where
  parent_model : String
  format : String
  family : String
  families : List String
  parameter_size : String
  quantization_level : String
deriving DecidableEq

/-- From `server.js` lines 159–166: each field is
`detailsResponse.data.details?.f || <default>`. -/
def extractDetails (d : ShowData) : ModelDetails :=
  { parent_model := ((d.details.bind (·.parent_model)).getD ""),
    format := ((d.details.bind (·.format)).getD ""),
    family := ((d.details.bind (·.family)).getD ""),
    families := ((d.details.bind (·.families)).getD []),
    parameter_size := ((d.details.bind (·.parameter_size)).getD ""),
    quantization_level := ((d.details.bind (·.quantization_level)).getD "") }

/-- A model as sent to the client: the spread original fields, plus the
`details` field when the detail sub-call succeeded. -/
structure EnrichedModel where
  base : TagModel
  details : Option ModelDetails
deriving DecidableEq

/-- From `server.js` lines 147–172: on success, `{...model, details: {...}}`;
on failure the `catch` returns the model with its original fields only. -/
def enrichModel (show? : String → Option ShowData) (m : TagModel) : EnrichedModel :=
  match show? m.name with
  | some d => ⟨m, some (extractDetails d)⟩
  | none => ⟨m, none⟩

/-- Lexicographic order on character lists by code point, the stand-in for
`a.name.localeCompare(b.name) <= 0` in the default locale. -/
def charListLe : List Char → List Char → Bool
  | [], _ => true
  | _ :: _, [] => false
  | a :: as, b :: bs =>
    if a.toNat < b.toNat then true
    else if b.toNat < a.toNat then false
    else charListLe as bs

/-- The sort comparator of `server.js` lines 175–177. -/
def nameLe (a b : EnrichedModel) : Prop :=
  charListLe a.base.name.toList b.base.name.toList = true

instance : DecidableRel nameLe := fun a b =>
  inferInstanceAs (Decidable (charListLe a.base.name.toList b.base.name.toList = true))

/-- The whole `GET /api/models` happy path: enrich every model, then sort
alphabetically by name. -/
def listModels (show? : String → Option ShowData) (ms : List TagModel) :
    List EnrichedModel :=
  List.insertionSort nameLe (ms.map (enrichModel show?))

/-! ### Helper lemmas -/

/-- Lemma: `jsIndexOf` finds the first occurrence: on `pre ++ c :: post` with
`c ∉ pre` it returns `pre.length`. -/
theorem jsIndexOf_first (c : Char) (pre post : List Char) (h : c ∉ pre) :
    jsIndexOf c (pre ++ c :: post) = some pre.length := by
  induction pre with
  | nil => simp [jsIndexOf]
  | cons a pre ih =>
      have ha : a ≠ c := fun hac => h (hac ▸ List.mem_cons_self a pre)
      have hpre : c ∉ pre := fun hc => h (List.mem_cons_of_mem a hc)
      simp [jsIndexOf, ha, ih hpre]

/-- Lemma: `find?` on a decomposed list whose prefix contains no match. -/
theorem find?_append_first {α : Type} (p : α → Bool) (l1 l2 : List α) (c : α)
    (hl1 : ∀ x ∈ l1, p x = false) (hc : p c = true) :
    (l1 ++ c :: l2).find? p = some c := by
  induction l1 with
  | nil => simp [List.find?_cons, hc]
  | cons a l1 ih =>
      have ha : p a = false := hl1 a (List.mem_cons_self a l1)
      have : ∀ x ∈ l1, p x = false := fun x hx => hl1 x (List.mem_cons_of_mem a hx)
      simp [List.find?_cons, ha, ih this]

/-! ### C10 — entry parsing splits at the first underscore -/

/-- Claim C10. -- The configuration parser splits every entry at the first `'_'`
unconditionally: for an entry `pre ++ '_' :: post` with no underscore in
`pre`, the parsed url is exactly the trimmed text before the first
underscore and the credential the trimmed text after it (empty becoming
`null`); in particular an entry beginning with `'_'` yields url `""`. -/
theorem parseEntry_splits_at_first_underscore :
    (∀ pre post : List Char, '_' ∉ pre →
      parseEntryItem (String.mk (pre ++ '_' :: post)) =
        ⟨jsTrim (String.mk pre), jsOrNullStr (jsTrim (String.mk post))⟩) ∧
    (∀ post : List Char, (parseEntryItem (String.mk ('_' :: post))).url = "") := by
  have main : ∀ pre post : List Char, '_' ∉ pre →
      parseEntryItem (String.mk (pre ++ '_' :: post)) =
        ⟨jsTrim (String.mk pre), jsOrNullStr (jsTrim (String.mk post))⟩ := by
    intro pre post h
    have hidx : jsIndexOf '_' (pre ++ '_' :: post) = some pre.length :=
      jsIndexOf_first '_' pre post h
    have htake : List.take pre.length (pre ++ '_' :: post) = pre :=
      List.take_left pre ('_' :: post)
    have hdrop : List.drop (pre.length + 1) (pre ++ '_' :: post) = post := by
      have e : pre ++ '_' :: post = (pre ++ ['_']) ++ post := by simp
      rw [e]
      simp
    simp [parseEntryItem, String.toList, hidx, htake, hdrop]
  refine ⟨main, fun post => ?_⟩
  have := main [] post (by simp)
  simpa using congrArg EndpointConfig.url this

/-- Closed instances of `parseEntry_splits_at_first_underscore`: the
hypothesis `'_' ∉ pre` discharged on concrete entries, including a url
containing an underscore (truncated) and an entry starting with `'_'`. -/
theorem parseEntry_splits_witness :
    parseEntryItem "http://a_k1" = ⟨"http://a", some "k1"⟩ ∧
    (parseEntryItem "_x").url = "" := by
  constructor
  · have h := parseEntry_splits_at_first_underscore.1
      ['h','t','t','p',':','/','/','a'] ['k','1'] (by decide)
    simpa using h
  · exact parseEntry_splits_at_first_underscore.2 ['x']

/-! ### C8 — credential lookup: absent url gives null, duplicates give the
first match -/

/-- Claim C8. -- For every parsed endpoint configuration and every url,
`getApiKeyFor` returns `null` when the url is absent from the parsed set,
and when the url appears in several parsed entries it returns the
credential of the first (earliest) matching entry. -/
theorem credentialFor_first_match :
    ∀ (env : Option String) (url : String),
      ((∀ c ∈ getEndpointConfigs env, c.url ≠ url) → getApiKeyFor env url = none) ∧
      (∀ (l1 l2 : List EndpointConfig) (c : EndpointConfig),
        getEndpointConfigs env = l1 ++ c :: l2 → c.url = url →
        (∀ e ∈ l1, e.url ≠ url) →
        getApiKeyFor env url = jsOrNullOpt c.apiKey) := by
  intro env url
  constructor
  · intro habs
    have hnone : (getEndpointConfigs env).find? (fun c => c.url == url) = none := by
      rw [List.find?_eq_none]
      intro c hc
      simpa using habs c hc
    simp [getApiKeyFor, hnone, jsOrNullOpt]
  · intro l1 l2 c hdec hcurl hl1
    have hfind : (getEndpointConfigs env).find? (fun c => c.url == url) = some c := by
      rw [hdec]
      refine find?_append_first _ l1 l2 c ?_ (by simpa using hcurl)
      intro x hx
      simpa using hl1 x hx
    simp [getApiKeyFor, hfind]

/-- Closed instances of `credentialFor_first_match`: a url configured twice
with different credentials resolves to the first credential, and an
unconfigured url resolves to `null`. -/
theorem credentialFor_first_match_witness :
    getApiKeyFor (some "http://a_k1,http://a_k2") "http://a" = some "k1" ∧
    getApiKeyFor (some "http://a_k1") "http://b" = none := by
  constructor
  · have h := (credentialFor_first_match (some "http://a_k1,http://a_k2") "http://a").2
      [] [⟨"http://a", some "k2"⟩] ⟨"http://a", some "k1"⟩ (by decide) rfl (by simp)
    simpa using h
  · exact (credentialFor_first_match (some "http://a_k1") "http://b").1 (by decide)

/-! ### C2 — batch delete: the reported failed-model names are misindexed

`results.filter(r => r.status === 'rejected').map((r, i) => models[i])`
indexes `models` with the position in the *filtered* list, so for
`["a","b","c"]` with only `"b"` rejected the lone surviving element gets
index `0` and the response names `"a"`, not `"b"`. -/

/-- Claim C2 (code evaluated at the failing input). -- For
`models = ["a","b","c"]` where only the sub-call for `"b"` fails: every
sub-call is still attempted (`deleteResults` is aligned with `models`),
the status is 500, but the message names `"a"` — not `"b"` as the claim
states — because the `failed` list maps filtered positions back into
`models`. -/
theorem deleteModels_failed_misindexed :
    deleteResults (fun m => m != "b") ["a", "b", "c"] = [true, false, true] ∧
    deleteModelsCore (fun m => m != "b") ["a", "b", "c"] =
      ⟨500, false, "Failed to delete models: a"⟩ ∧
    deleteModelsCore (fun _ => true) ["a", "b", "c"] =
      ⟨200, true, "Models deleted successfully"⟩ := by
  refine ⟨by decide, by decide, by decide⟩

/-! ### C9 — missing-field validation: pull/update answer 400, but
`DELETE /api/models` answers 500 -/

/-- Claim C9 (counterexample). -- A `DELETE /api/models` request whose body has
no `models` field is answered with status 500 (the `catch` around
`models.map`), not 400 as the claim states — though still with zero
backend calls. -/
theorem deleteRoute_missing_body_not_400 :
    (deleteRoute none (fun _ => true)).1.status = 500 ∧
    ¬(deleteRoute none (fun _ => true)).1.status = 400 ∧
    (deleteRoute none (fun _ => true)).2 = 0 := by
  refine ⟨rfl, by decide, rfl⟩

/-- Claim C9 (amended). -- `POST /api/pull` without `model` and
`POST /api/update-model` without `modelName` answer 400 before any backend
call; `DELETE /api/models` without `models` also makes no backend call but
answers 500 (`"Failed to process delete request"`), not 400. -/
theorem missing_field_validation :
    pullRoute none = ⟨400, 0⟩ ∧
    pullRoute (some "") = ⟨400, 0⟩ ∧
    updateModelRoute none = ⟨400, 0⟩ ∧
    updateModelRoute (some "") = ⟨400, 0⟩ ∧
    (∀ ok : String → Bool,
      deleteRoute none ok = (⟨500, false, "Failed to process delete request"⟩, 0)) := by
  refine ⟨rfl, by decide, rfl, by decide, fun ok => rfl⟩

/-! ### C3 — after set-endpoint, backend calls target the new url; but the
detail/show call carries no Authorization header -/

/-- Claim C3 (code evaluated at the failing input). -- After the active target
is set to `u`, the ps/list/delete/pull calls are addressed to `u` and
carry `u`'s resolved credential as the Authorization bearer value — but
the detail/show sub-call, whose `headers` object is passed as the body of
`axios.post`, carries NO Authorization header at all: the credential ends
up serialized inside the JSON request body instead. -/
theorem backend_calls_after_set_endpoint :
    (∀ (env : Option String) (u m : String) (op : JVal),
      (psRequest env (setEndpoint u)).url = u ++ "/api/ps" ∧
      (psRequest env (setEndpoint u)).headers.lookup "Authorization"
        = some ("Bearer " ++ jsTemplate (getApiKeyFor env u)) ∧
      (tagsRequest env (setEndpoint u)).url = u ++ "/api/tags" ∧
      (tagsRequest env (setEndpoint u)).headers.lookup "Authorization"
        = some ("Bearer " ++ jsTemplate (getApiKeyFor env u)) ∧
      (deleteRequest env (setEndpoint u) m).url = u ++ "/api/delete" ∧
      (deleteRequest env (setEndpoint u) m).headers.lookup "Authorization"
        = some ("Bearer " ++ jsTemplate (getApiKeyFor env u)) ∧
      (pullRequest env (setEndpoint u) op).url = u ++ "/api/pull" ∧
      (pullRequest env (setEndpoint u) op).headers.lookup "Authorization"
        = some ("Bearer " ++ jsTemplate (getApiKeyFor env u))) ∧
    (∀ (env : Option String) (u n : String),
      (showRequest env (setEndpoint u) n).url = u ++ "/api/show" ∧
      (showRequest env (setEndpoint u) n).headers.lookup "Authorization" = none ∧
      (showRequest env (setEndpoint u) n).body =
        .obj [("name", .s n),
              ("headers", .obj [("Authorization", .s (authValue env u)),
                                ("Content-Type", .s "application/json")])]) := by
  constructor
  · intro env u m op
    refine ⟨rfl, rfl, rfl, rfl, rfl, rfl, rfl, rfl⟩
  · intro env u n
    refine ⟨rfl, rfl, rfl⟩

/-! ### C6 — missing credential: the bearer value is the literal `"null"`,
except that the show call sends no Authorization header at all -/

/-- Claim C6 (code evaluated at the failing input). -- When `getApiKeyFor`
resolves no credential for the active url, every call site that does send
HTTP headers sends `Authorization: Bearer null` (the literal four-character
string); but the detail/show sub-call — one of "every outbound backend
call" — sends no Authorization header whatsoever, its headers object being
embedded in the request body. -/
theorem null_bearer_on_unconfigured_url :
    (∀ (env : Option String) (u : String),
      getApiKeyFor env u = none → authValue env u = "Bearer null") ∧
    (psRequest (some "http://a_k") "http://b").headers.lookup "Authorization"
      = some "Bearer null" ∧
    (showRequest (some "http://a_k") "http://b" "m").headers.lookup "Authorization"
      = none := by
  refine ⟨?_, ?_, rfl⟩
  · intro env u h
    simp [authValue, h, jsTemplate]
  · have h : getApiKeyFor (some "http://a_k") "http://b" = none := by decide
    simp [psRequest, stdHeaders, authValue, h, jsTemplate, List.lookup]

/-- Closed instance of `null_bearer_on_unconfigured_url`: the hypothesis
`getApiKeyFor env u = none` discharged at a concrete configuration. -/
theorem null_bearer_witness :
    authValue (some "http://a_k") "http://b" = "Bearer null" :=
  null_bearer_on_unconfigured_url.1 (some "http://a_k") "http://b" (by decide)

/-! ### Relay helper lemmas -/

/-- Lemma: `processLine` emits writes only, never `res.end()`. -/
theorem processLine_no_end (parse : String → Bool) (line : String) :
    ∀ a ∈ processLine parse line, a.isEndAct = false := by
  intro a ha
  unfold processLine at ha
  split at ha
  · split at ha
    · simp at ha
      subst ha
      rfl
    · simp at ha
  · simp at ha

/-- The `'data'` handler never calls `res.end()`. -/
theorem endCount_processChunk (parse : String → Bool) (chunk : String) (s : RelayState) :
    endCount (processChunk parse chunk s) = endCount s := by
  unfold endCount processChunk
  rw [List.countP_append]
  have : ((jsSplit '\n' chunk).flatMap (processLine parse)).countP WriteAct.isEndAct = 0 := by
    rw [List.countP_eq_zero]
    intro a ha
    rcases List.mem_flatMap.mp ha with ⟨l, _, hl⟩
    simp [processLine_no_end parse l a hl]
  simp [this]

/-- The `'data'` handler never touches the `hasEnded` guard. -/
theorem hasEnded_processChunk (parse : String → Bool) (chunk : String) (s : RelayState) :
    (processChunk parse chunk s).hasEnded = s.hasEnded := rfl

/-- Lemma: `endResponse` calls `res.end()` exactly once on the first call and
never after. -/
theorem endCount_endResponse (err : Option String) (s : RelayState) :
    endCount (endResponse err s) =
      if s.hasEnded then endCount s else endCount s + 1 := by
  unfold endCount endResponse
  split
  · simp [*]
  · cases err <;> simp [List.countP_append, WriteAct.isEndAct, *]

/-- After `endResponse` the guard is always set. -/
theorem hasEnded_endResponse (err : Option String) (s : RelayState) :
    (endResponse err s).hasEnded = true := by
  unfold endResponse
  split
  · assumption
  · rfl

/-- Invariant of the relay machine: the number of `res.end()` calls in the
log is `1` when the guard is set and `0` otherwise. -/
theorem relay_endCount_invariant (parse : String → Bool) :
    ∀ (events : List RelayEvent) (s : RelayState),
      endCount s = (if s.hasEnded then 1 else 0) →
      endCount (events.foldl (relayStep parse) s) =
        (if (events.foldl (relayStep parse) s).hasEnded then 1 else 0) := by
  intro events
  induction events with
  | nil => intro s hs; simpa using hs
  | cons e rest ih =>
      intro s hs
      have hstep : endCount (relayStep parse s e) =
          (if (relayStep parse s e).hasEnded then 1 else 0) := by
        cases e with
        | data chunk =>
            rw [relayStep, endCount_processChunk, hasEnded_processChunk]
            exact hs
        | streamEnd =>
            rw [relayStep, endCount_endResponse, hasEnded_endResponse]
            by_cases h : s.hasEnded <;> simp [h, hs] at *
        | streamError m =>
            rw [relayStep, endCount_endResponse, hasEnded_endResponse]
            by_cases h : s.hasEnded <;> simp [h, hs] at *
        | clientClose =>
            rw [relayStep, endCount_endResponse, hasEnded_endResponse]
            by_cases h : s.hasEnded <;> simp [h, hs] at *
      simpa using ih (relayStep parse s e) hstep

/-! ### C1 — per-relay termination: close runs at most once, but a
forwarding write can land after the terminal event -/

/-- Claim C1 (counterexample). -- The claim's second half fails on the code: the
`'data'` handler never consults `hasEnded`, so when a backend chunk is
processed after the client-close terminal event, its lines are still
forwarded — here a write occurs after the first (and only) `res.end()`. -/
theorem relay_write_after_terminal_event :
    writeAfterEnd (relayRun braceParse
      [RelayEvent.clientClose,
       RelayEvent.data "\x7b\"status\":\"ok\"\x7d"]).log = true := by
  decide

/-- Claim C1 (amended). -- For every relay operation and every sequence of
termination triggers and data events, in any order and multiplicity, the
close/teardown logic (`res.end()`) runs at most once.  (The original
claim's further assertion — that no forwarding write occurs after the
first terminal event — fails, see the counterexample: data chunks
arriving after the terminal event are still forwarded.) -/
theorem relay_close_at_most_once
    (parse : String → Bool) (events : List RelayEvent) :
    endCount (relayRun parse events) ≤ 1 := by
  have h := relay_endCount_invariant parse events initialRelayState (by rfl)
  rw [relayRun, h]
  split <;> simp

/-! ### C4 — failure path: one error record, one close, nothing when the
client is already closed -/

/-- Claim C4. -- When the initiating backend call fails or the backend stream
errors (both reach `endResponse(error)`): if the response is still open,
exactly one record `{status:"error", error:<message>}` followed by a
newline is written and the stream is then ended, once; if the client
connection is already closed (`hasEnded` set), zero additional effects
are produced. -/
theorem relay_error_single_record
    (s : RelayState) (msg : String) :
    (s.hasEnded = false →
      (endResponse (some msg) s).log =
        s.log ++ [WriteAct.write (errorRecord msg), WriteAct.endRes] ∧
      (endResponse (some msg) s).hasEnded = true) ∧
    (s.hasEnded = true → ∀ err, endResponse err s = s) := by
  constructor
  · intro h
    constructor
    · simp [endResponse, h]
    · simp [endResponse, h]
  · intro h err
    simp [endResponse, h]

/-- Closed instances of `relay_error_single_record`: a fresh relay whose
initiation fails with `connect ECONNREFUSED` writes exactly the one error
record then ends; an already-closed response swallows a later error with
zero additional writes. -/
theorem relay_error_single_record_witness :
    (endResponse (some "connect ECONNREFUSED") initialRelayState).log =
      [WriteAct.write (errorRecord "connect ECONNREFUSED"), WriteAct.endRes] ∧
    endResponse (some "late error") ⟨true, [WriteAct.endRes]⟩ =
      ⟨true, [WriteAct.endRes]⟩ := by
  constructor
  · have h := (relay_error_single_record initialRelayState "connect ECONNREFUSED").1 rfl
    simpa [initialRelayState] using h.1
  · exact (relay_error_single_record ⟨true, [WriteAct.endRes]⟩ "x").2 rfl (some "late error")

/-! ### C5 — chunk processing: newline split, per-line JSON parse, drop
invalid fragments, forward valid lines -/

/-- Lemma: `processLine` as a filter condition. -/
theorem processLine_eq (parse : String → Bool) (line : String) :
    processLine parse line =
      if ((jsTrim line != "") && parse line) = true
      then [WriteAct.write (line ++ "\n")] else [] := by
  unfold processLine
  by_cases h1 : jsTrim line = "" <;> by_cases h2 : parse line = true <;> simp [h1, h2]

/-- The writes of one chunk are exactly the non-blank, successfully parsed
lines, in order, each with a trailing newline. -/
theorem flatMap_processLine (parse : String → Bool) :
    ∀ ls : List String,
      ls.flatMap (processLine parse) =
        (ls.filter (fun l => (jsTrim l != "") && parse l)).map
          (fun l => WriteAct.write (l ++ "\n")) := by
  intro ls
  induction ls with
  | nil => rfl
  | cons l rest ih =>
      rw [List.flatMap_cons, List.filter_cons, processLine_eq]
      by_cases h : ((jsTrim l != "") && parse l) = true <;> simp [h, ih]

/-- Claim C5. -- Every raw chunk is split on newline boundaries; each non-empty
line is parsed independently; lines that fail to parse are dropped without
terminating the stream; each successfully parsed line is forwarded as one
chunk with a trailing newline.  Concretely, for the spec's two raw chunks
`{"status":"downloading"}\n{"status":"verify` and `ing"}\n`, exactly the
fully-contained line is forwarded, both fragments are dropped, and the
stream is still open. -/
theorem relay_chunk_line_splitting :
    (∀ (parse : String → Bool) (chunk : String) (s : RelayState),
      (processChunk parse chunk s).log =
        s.log ++ ((jsSplit '\n' chunk).filter
            (fun l => (jsTrim l != "") && parse l)).map
          (fun l => WriteAct.write (l ++ "\n")) ∧
      (processChunk parse chunk s).hasEnded = s.hasEnded) ∧
    ((relayRun braceParse
        [RelayEvent.data "\x7b\"status\":\"downloading\"\x7d\n\x7b\"status\":\"verify",
         RelayEvent.data "ing\"\x7d\n"]) =
      ⟨false, [WriteAct.write "\x7b\"status\":\"downloading\"\x7d\n"]⟩) := by
  constructor
  · intro parse chunk s
    exact ⟨by rw [processChunk, flatMap_processLine], rfl⟩
  · decide

/-! ### Comparator lemmas for the alphabetic sort -/

/-- Unfolding of `charListLe` on two cons cells. -/
theorem charListLe_cons_iff (a b : Char) (as bs : List Char) :
    charListLe (a :: as) (b :: bs) = true ↔
      a.toNat < b.toNat ∨ (a.toNat = b.toNat ∧ charListLe as bs = true) := by
  have e : charListLe (a :: as) (b :: bs) =
      if a.toNat < b.toNat then true
      else if b.toNat < a.toNat then false
      else charListLe as bs := rfl
  rw [e]
  split_ifs with h1 h2
  · simp [h1]
  · constructor
    · intro h; simp at h
    · intro h; exfalso; rcases h with h | ⟨h, _⟩ <;> omega
  · have heq : a.toNat = b.toNat := by omega
    simp [h1, heq]

/-- Totality of the lexicographic comparator. -/
theorem charListLe_total : ∀ x y : List Char,
    charListLe x y = true ∨ charListLe y x = true := by
  intro x
  induction x with
  | nil => intro y; left; rfl
  | cons a as ih =>
      intro y
      cases y with
      | nil => right; rfl
      | cons b bs =>
          rw [charListLe_cons_iff, charListLe_cons_iff]
          rcases Nat.lt_trichotomy a.toNat b.toNat with h | h | h
          · left; left; exact h
          · rcases ih bs with hab | hba
            · left; right; exact ⟨h, hab⟩
            · right; right; exact ⟨h.symm, hba⟩
          · right; left; exact h

/-- Transitivity of the lexicographic comparator. -/
theorem charListLe_trans : ∀ x y z : List Char,
    charListLe x y = true → charListLe y z = true → charListLe x z = true := by
  intro x
  induction x with
  | nil => intro y z _ _; rfl
  | cons a as ih =>
      intro y z hxy hyz
      cases y with
      | nil => simp [charListLe] at hxy
      | cons b bs =>
          cases z with
          | nil => simp [charListLe] at hyz
          | cons c cs =>
              rw [charListLe_cons_iff] at hxy hyz ⊢
              rcases hxy with hab | ⟨hab, hxy'⟩
              · rcases hyz with hbc | ⟨hbc, _⟩
                · exact Or.inl (Nat.lt_trans hab hbc)
                · exact Or.inl (hbc ▸ hab)
              · rcases hyz with hbc | ⟨hbc, hyz'⟩
                · exact Or.inl (hab ▸ hbc)
                · exact Or.inr ⟨hab.trans hbc, ih bs cs hxy' hyz'⟩

instance : IsTotal EnrichedModel nameLe :=
  ⟨fun a b => charListLe_total a.base.name.toList b.base.name.toList⟩

instance : IsTrans EnrichedModel nameLe :=
  ⟨fun a b c => charListLe_trans a.base.name.toList b.base.name.toList c.base.name.toList⟩

/-! ### Enrichment lemmas -/

/-- An enriched model carries a `details` object iff its detail sub-call
succeeded. -/
theorem enrich_details_isSome (show? : String → Option ShowData) (m : TagModel) :
    (enrichModel show? m).details.isSome = (show? m.name).isSome := by
  unfold enrichModel
  cases show? m.name <;> rfl

/-- Enrichment never alters the original fields. -/
theorem enrich_base (show? : String → Option ShowData) (m : TagModel) :
    (enrichModel show? m).base = m := by
  unfold enrichModel
  cases show? m.name <;> rfl

/-- Filtering a mapped list by `p` is filtering the original by `p ∘ f`. -/
theorem length_filter_map {α β : Type} (f : α → β) (p : β → Bool) (l : List α) :
    ((l.map f).filter p).length = (l.filter (fun a => p (f a))).length := by
  induction l with
  | nil => rfl
  | cons a l ih => by_cases h : p (f a) <;> simp [List.filter_cons, h, ih]

/-! ### C7 — listing returns all N models, K of them unenriched, sorted by
name ascending -/

/-- Claim C7. -- For every backend list response and every outcome of the detail
sub-calls: the listing returns exactly as many models as the backend
listed; exactly those whose detail sub-call succeeded carry a `details`
object; a model whose sub-call failed is returned with its original fields
only (it is one of the input models, unmodified, with no `details` field);
and the result is sorted by `name` ascending — concretely, input names
`["mistral","alpaca"]` produce output order `["alpaca","mistral"]`. -/
theorem listModels_enrichment :
    (∀ (show? : String → Option ShowData) (ms : List TagModel),
      (listModels show? ms).length = ms.length ∧
      ((listModels show? ms).filter (fun m => m.details.isSome)).length =
        (ms.filter (fun m => (show? m.name).isSome)).length ∧
      (∀ m ∈ listModels show? ms, m.details = none →
        m.base ∈ ms ∧ m = ⟨m.base, none⟩) ∧
      List.Sorted nameLe (listModels show? ms)) ∧
    listModels (fun _ => none) [⟨"mistral", []⟩, ⟨"alpaca", []⟩] =
      [⟨⟨"alpaca", []⟩, none⟩, ⟨⟨"mistral", []⟩, none⟩] := by
  constructor
  · intro show? ms
    have perm := List.perm_insertionSort nameLe (ms.map (enrichModel show?))
    refine ⟨?_, ?_, ?_, ?_⟩
    · rw [listModels, perm.length_eq, List.length_map]
    · rw [listModels, (perm.filter _).length_eq, length_filter_map]
      congr 1
      refine List.filter_congr ?_
      intro m _
      rw [enrich_details_isSome]
    · intro m hm hnone
      have hm' : m ∈ ms.map (enrichModel show?) := perm.mem_iff.mp hm
      rcases List.mem_map.mp hm' with ⟨m0, hm0, hem⟩
      have hbase : m.base = m0 := by rw [← hem, enrich_base]
      cases hshow : show? m0.name with
      | some d =>
          exfalso
          rw [← hem] at hnone
          rw [enrichModel, hshow] at hnone
          simp at hnone
      | none =>
          have hm_eq : m = ⟨m0, none⟩ := by
            rw [← hem]; simp [enrichModel, hshow]
          constructor
          · rw [hbase]; exact hm0
          · rw [hm_eq]
    · exact List.sorted_insertionSort nameLe _
  · decide

/-- Closed instance of `listModels_enrichment`: its per-model hypotheses
(membership in the listing, absent `details`) discharged on the concrete
listing where every detail sub-call fails. -/
theorem listModels_enrichment_witness :
    (⟨"alpaca", []⟩ : TagModel) ∈ [(⟨"mistral", []⟩ : TagModel), ⟨"alpaca", []⟩] :=
  (((listModels_enrichment.1 (fun _ => none)
      [⟨"mistral", []⟩, ⟨"alpaca", []⟩]).2.2.1
    ⟨⟨"alpaca", []⟩, none⟩ (by decide) rfl).1)

end OllamaMM
